import Mathlib

/-!
Verification of the trigger-evaluation and capture-coordination core of the
Waggle condition-triggered image sampler (`src/app.py`).

The Python source is shallowly embedded: pure helpers become Lean functions,
the mutable signal dictionary becomes an association list with unique keys,
and the two scheduling loops become explicit step functions.  Scalar signal
values (Python floats, used only as opaque payloads by the core) are modelled
as rationals; timestamps from `time.time()` are modelled as rationals as
well.  The Python `eval` of the trigger expression (line 60 of `app.py`) is
not given a semantics; the event step takes the evaluator's boolean verdict
as a parameter.
-/

namespace ImageSampler

/-! ## Expression tokenizer (`extract_topics`, app.py lines 22-30)

`re.findall(r"\b[a-z]\w+", expr)`: a match must start at a word boundary
with an ASCII lowercase letter and greedily take at least one further word
character, so the matches are exactly the maximal runs of word characters
whose first character is a lowercase letter and whose length is at least 2.
(The source strings are ASCII; `\w` is modelled as ASCII word characters.) -/

/-- ASCII word character, the `\w` class of the pattern. -/
def isWordChar (c : Char) : Bool :=
  ('a' ≤ c && c ≤ 'z') || ('A' ≤ c && c ≤ 'Z') || ('0' ≤ c && c ≤ '9') || c = '_'

/-- ASCII lowercase letter, the `[a-z]` class of the pattern. -/
def isLowerAZ (c : Char) : Bool :=
  'a' ≤ c && c ≤ 'z'

/-- Split a character list into its maximal runs of word characters,
dropping the separating non-word characters.  `acc` holds the current run,
reversed. -/
def wordRunsAux : List Char → List Char → List (List Char)
  | [], acc => if acc.isEmpty then [] else [acc.reverse]
  | c :: cs, acc =>
    if isWordChar c then
      wordRunsAux cs (c :: acc)
    else if acc.isEmpty then
      wordRunsAux cs []
    else
      acc.reverse :: wordRunsAux cs []

/-- The maximal word-character runs of a string. -/
def wordRuns (s : String) : List (List Char) :=
  wordRunsAux s.data []

/-- A run is a match of `\b[a-z]\w+`: first character lowercase, length ≥ 2. -/
def isIdentRun : List Char → Bool
  | c :: _ :: _ => isLowerAZ c
  | _ => false

/-- `re.findall(r"\b[a-z]\w+", expr)` (app.py line 23). -/
def findIdents (expr : String) : List String :=
  ((wordRuns expr).filter isIdentRun).map fun r => String.mk r

/-- Python `list.remove`: drop the first occurrence of `a` (no-op models the
`ValueError` branch, reached only when `a` is absent). -/
def removeFirst (a : String) : List String → List String
  | [] => []
  | x :: xs => if x = a then xs else x :: removeFirst a xs

/-- The `while True: try: topics.remove(reserved) except ValueError: break`
loop (app.py lines 25-29), with explicit fuel: remove first occurrences of
`a` until none is left. -/
def removeLoop (a : String) : Nat → List String → List String
  | 0, xs => xs
  | fuel + 1, xs => if a ∈ xs then removeLoop a fuel (removeFirst a xs) else xs

/-- Remove every occurrence of `a` (the loop runs with enough fuel: each
round removes one occurrence). -/
def removeEvery (a : String) (xs : List String) : List String :=
  removeLoop a xs.length xs

/-- `extract_topics` (app.py lines 22-30): the regex matches, with every
occurrence of `or` and then of `and` removed. -/
def extract_topics (expr : String) : List String :=
  removeEvery "and" (removeEvery "or" (findIdents expr))

/-! ## Name normalization -/

/-- `s.replace('.', '_')` — used on the condition (line 47) and on incoming
message names (line 55).  A single-character pattern, so a character map. -/
def undot (s : String) : String :=
  String.mk (s.data.map fun c => if c = '.' then '_' else c)

/-- `t.replace('_', '.')` — the dotted form sent to `plugin.subscribe`
(line 50). -/
def redot (s : String) : String :=
  String.mk (s.data.map fun c => if c = '_' then '.' else c)

/-! ## Signal State Table (the `topics` dict of `run_on_event`)

A Python dict keyed by strings: modelled as an association list whose update
replaces the first (hence, under the no-duplicate invariant, the only)
binding of the key, or appends a new binding. -/

/-- The Signal State Table: signal identifier ↦ most recent scalar value. -/
abbrev Table : Type := List (String × Rat)

/-- Dict lookup. -/
def Table.lookup (k : String) : Table → Option Rat
  | [] => none
  | (k', v) :: rest => if k' = k then some v else Table.lookup k rest

/-- The keys of the table, in insertion order. -/
def Table.keys : Table → List String
  | [] => []
  | (k, _) :: rest => k :: Table.keys rest

/-- How many bindings the table holds for `k`. -/
def Table.countKey (k : String) (t : Table) : Nat :=
  (Table.keys t).count k

/-- Dict assignment `t[k] = v`: overwrite the binding of `k`, or append it. -/
def Table.set (k : String) (v : Rat) : Table → Table
  | [] => [(k, v)]
  | (k', v') :: rest =>
    if k' = k then (k, v) :: rest else (k', v') :: Table.set k v rest

/-- Seeding of the table in `run_on_event` (lines 46-50):
`topics = {}` then `topics[t] = 0.` for each extracted topic of the
normalized condition. -/
def initTable (condition : String) : Table :=
  (extract_topics (undot condition)).foldl (fun t k => Table.set k 0 t) []

/-- The dotted names handed to `plugin.subscribe`, one per extracted topic
(line 50). -/
def subscriptions (condition : String) : List String :=
  (extract_topics (undot condition)).map redot

/-- The table update performed for a received message (`(name, value)`,
app.py line 55): normalize the name and overwrite that key. -/
def applyMsg (t : Table) (msg : String × Rat) : Table :=
  Table.set (undot msg.1) msg.2 t

/-- Apply a sequence of received messages in order. -/
def applyMsgs (t : Table) (msgs : List (String × Rat)) : Table :=
  msgs.foldl applyMsg t

example : extract_topics "temp > 10 and humidity < 50" = ["temp", "humidity"] := by
  decide

example : extract_topics "x > 0" = [] := by decide

example : extract_topics "a_b or a_b" = ["a_b", "a_b"] := by decide

/-! ## Capture Sequencer (`get_sample`, app.py lines 33-41)

One fetch attempt either yields a `(ts_ns, image)` frame or raises
`TimeoutError`; the outcomes of the attempts are a parameter
`attempt : Nat → Option Frame` (attempt numbers start at 1, as in
`range(1, retry + 1)`).  The image payload is opaque, modelled as `Nat`. -/

/-- A captured frame: `(ts_ns, image)`. -/
abbrev Frame : Type := Nat × Nat

/-- The retry loop of `get_sample`, started at attempt number `n` with
`fuel` attempts left.  Returns the result (`none` models the
`return None, None` fall-through) together with the number of attempts
actually performed. -/
def getSampleLoop (attempt : Nat → Option Frame) : Nat → Nat → Option Frame × Nat
  | 0, _ => (none, 0)
  | fuel + 1, n =>
    match attempt n with
    | some f => (some f, 1)
    | none =>
      let r := getSampleLoop attempt fuel (n + 1)
      (r.1, r.2 + 1)

/-- `get_sample(stream, retry, timeout)` (app.py lines 33-41): up to `retry`
attempts, first success wins, `(None, None)` after exhaustion. -/
def get_sample (attempt : Nat → Option Frame) (retry : Nat) : Option Frame × Nat :=
  getSampleLoop attempt retry 1

/-- The caller-side check (app.py lines 62-64 and 97-99): a `None` image
raises the fatal no-frame exception. -/
def sampleOrHalt (attempt : Nat → Option Frame) (retry : Nat) : Except String Frame :=
  match (get_sample attempt retry).1 with
  | some f => Except.ok f
  | none => Except.error "failed to receive an image. halting the sampling..."

/-! ## Output path (app.py lines 66-72 and 101-107)

`datetime.fromtimestamp(ts_ns / 1e9).astimezone(timezone.utc)` then
`strftime('%Y-%m-%dT%H:%M:%S%z.jpg')`.  The float division by `1e9` followed
by the second-resolution format is modelled as integer division of the
nanosecond timestamp by `10^9` (the sub-second fraction is dropped by the
format; `%z` for UTC prints `+0000`). -/

/-- Civil date from a count of days since 1970-01-01 (proleptic Gregorian),
for non-negative day counts: `(year, month, day)`. -/
def civilFromDays (days : Nat) : Nat × Nat × Nat :=
  let z := days + 719468
  let era := z / 146097
  let doe := z % 146097
  let yoe := (doe - doe / 1460 + doe / 36524 - doe / 146096) / 365
  let y := yoe + era * 400
  let doy := doe - (365 * yoe + yoe / 4 - yoe / 100)
  let mp := (5 * doy + 2) / 153
  let d := doy - (153 * mp + 2) / 5 + 1
  let m := if mp < 10 then mp + 3 else mp - 9
  (if m ≤ 2 then y + 1 else y, m, d)

/-- Zero-padded two-digit decimal field. -/
def pad2 (n : Nat) : String :=
  if n < 10 then "0" ++ toString n else toString n

/-- `strftime('%Y-%m-%dT%H:%M:%S%z')` of a UTC Unix time in seconds. -/
def formatUTC (secs : Nat) : String :=
  let days := secs / 86400
  let rem := secs % 86400
  let ymd := civilFromDays days
  toString ymd.1 ++ "-" ++ pad2 ymd.2.1 ++ "-" ++ pad2 ymd.2.2 ++ "T" ++
    pad2 (rem / 3600) ++ ":" ++ pad2 (rem % 3600 / 60) ++ ":" ++ pad2 (rem % 60) ++
    "+0000"

/-- `os.path.join(out_dir, name)` for the paths produced here (the filename
never starts with a separator): insert a `/` unless `dir` already ends in
one. -/
def joinPath (dir name : String) : String :=
  if dir.data.getLast? = some '/' then dir ++ name else dir ++ "/" ++ name

/-- The Output Path of a capture (app.py lines 66-72 / 101-107): timestamped
file under `out_dir` when one is configured, the fixed `sample.jpg`
otherwise. -/
def outputPath (out_dir : String) (ts_ns : Nat) : String :=
  if out_dir ≠ "" then
    joinPath out_dir (formatUTC (ts_ns / 1000000000) ++ ".jpg")
  else
    "sample.jpg"

example : formatUTC (1700000000123456789 / 1000000000) = "2023-11-14T22:13:20+0000" := by
  decide

/-! ## Command-line surface and mode selection (app.py lines 119-149) -/

/-- The parsed command-line arguments (app.py lines 120-142). -/
structure Args where
  stream : String
  out_dir : String
  interval : Nat
  condition : String
  cooldown : Rat

/-- The two mutually exclusive scheduling modes. -/
inductive Mode
  | periodic
  | onEvent
deriving DecidableEq

/-- The startup dispatch (app.py lines 146-149): periodic when no condition
string was supplied, event-driven otherwise. -/
def selectMode (condition : String) : Mode :=
  if condition = "" then Mode.periodic else Mode.onEvent

/-! ## Event-driven loop body (`run_on_event`, app.py lines 52-86)

State: the Signal State Table and the cooldown deadline (`cooldown`
variable).  One iteration consumes one message from `plugin.get()`; `now` is
the `time.time()` read at the gate check (line 56) and `tFire` the
`time.time()` read when the cooldown is reset after a capture (line 84).
The verdict of `eval(condition, topics)` is the parameter `evalCond` applied
to the updated table. -/

/-- Mutable state of the event-driven loop. -/
structure EventState where
  table : Table
  deadline : Rat
deriving DecidableEq

/-- Observable outcome of one event-loop iteration. -/
inductive StepOut
  /-- Cooldown closed: table updated, short sleep, back to waiting. -/
  | blocked (s : EventState)
  /-- Gate open but the condition evaluated false. -/
  | noFire (s : EventState)
  /-- Condition fired and a frame was captured, written and uploaded. -/
  | fired (s : EventState) (ts_ns : Nat) (path : String)
  /-- The Capture Sequencer exhausted its retries: fatal halt. -/
  | halted
deriving DecidableEq

/-- One iteration of the `while True` loop of `run_on_event`
(app.py lines 53-86). -/
def eventStep (evalCond : Table → Bool) (cooldownSecs : Rat) (out_dir : String)
    (attempt : Nat → Option Frame) (retry : Nat) (s : EventState)
    (msg : String × Rat) (now tFire : Rat) : StepOut :=
  if now < s.deadline then
    StepOut.blocked ⟨applyMsg s.table msg, s.deadline⟩
  else if evalCond (applyMsg s.table msg) then
    match (get_sample attempt retry).1 with
    | some f =>
      StepOut.fired ⟨applyMsg s.table msg, tFire + cooldownSecs⟩ f.1
        (outputPath out_dir f.1)
    | none => StepOut.halted
  else
    StepOut.noFire ⟨applyMsg s.table msg, s.deadline⟩

/-- The table carried out of a non-halting iteration. -/
def StepOut.tableOf : StepOut → Option Table
  | StepOut.blocked s => some s.table
  | StepOut.noFire s => some s.table
  | StepOut.fired s _ _ => some s.table
  | StepOut.halted => none

/-! ## Periodic loop body (`run_periodically`, app.py lines 89-116)

One cycle sleeps `args.interval` seconds and then unconditionally runs the
Capture Sequencer and the persist+upload pipeline.  The cycle receives the
full argument record, plus — to express that they are never consulted — an
evaluator and a cooldown deadline, neither of which appears in the body. -/

/-- Observable outcome of one periodic cycle: how long the cycle slept, and
the capture result. -/
inductive PeriodicOut
  | captured (sleptFor : Nat) (ts_ns : Nat) (path : String)
  | halted (sleptFor : Nat)
deriving DecidableEq

/-- One iteration of the `while True` loop of `run_periodically`
(app.py lines 92-116). -/
def periodicCycle (args : Args) (_evalCond : Table → Bool) (_deadline : Rat)
    (attempt : Nat → Option Frame) (retry : Nat) : PeriodicOut :=
  match (get_sample attempt retry).1 with
  | some f => PeriodicOut.captured args.interval f.1 (outputPath args.out_dir f.1)
  | none => PeriodicOut.halted args.interval

/-! ## Helper lemmas: the removal loop removes every occurrence -/

theorem filter_removeFirst (a : String) (xs : List String) :
    (removeFirst a xs).filter (fun x => x != a) = xs.filter (fun x => x != a) := by
  induction xs with
  | nil => rfl
  | cons x xs ih =>
    by_cases hx : x = a
    · subst hx
      simp [removeFirst, List.filter]
    · simp [removeFirst, hx, List.filter_cons, ih]

theorem length_removeFirst {a : String} {xs : List String} (h : a ∈ xs) :
    (removeFirst a xs).length + 1 = xs.length := by
  induction xs with
  | nil => cases h
  | cons x xs ih =>
    by_cases hx : x = a
    · simp [removeFirst, hx]
    · have hmem : a ∈ xs := by
        cases h with
        | head => exact absurd rfl hx
        | tail _ h => exact h
      have h2 := ih hmem
      simp only [removeFirst, if_neg hx, List.length_cons]
      omega

theorem removeLoop_eq_filter (a : String) :
    ∀ fuel xs, xs.length ≤ fuel →
      removeLoop a fuel xs = xs.filter (fun x => x != a) := by
  intro fuel
  induction fuel with
  | zero =>
    intro xs h
    have : xs = [] := List.eq_nil_of_length_eq_zero (Nat.le_zero.mp h)
    subst this
    rfl
  | succ n ih =>
    intro xs h
    by_cases hmem : a ∈ xs
    · have hlen : (removeFirst a xs).length ≤ n := by
        have := length_removeFirst hmem
        omega
      calc removeLoop a (n + 1) xs = removeLoop a n (removeFirst a xs) := by
              simp [removeLoop, hmem]
        _ = (removeFirst a xs).filter (fun x => x != a) := ih _ hlen
        _ = xs.filter (fun x => x != a) := filter_removeFirst a xs
    · have hall : xs.filter (fun x => x != a) = xs := by
        apply List.filter_eq_self.mpr
        intro x hx
        have : x ≠ a := fun hxa => hmem (hxa ▸ hx)
        simpa using this
      simp [removeLoop, hmem, hall]

theorem removeEvery_eq_filter (a : String) (xs : List String) :
    removeEvery a xs = xs.filter (fun x => x != a) :=
  removeLoop_eq_filter a xs.length xs (Nat.le_refl _)

/-- `extract_topics` keeps exactly the non-keyword identifier matches, in
order, with multiplicity. -/
theorem extract_topics_eq_filter (expr : String) :
    extract_topics expr =
      (findIdents expr).filter (fun t => t != "or" && t != "and") := by
  unfold extract_topics
  rw [removeEvery_eq_filter, removeEvery_eq_filter, List.filter_filter]
  exact List.filter_congr fun t _ => Bool.and_comm _ _

/-! ## Helper lemmas: the Signal State Table -/

theorem Table.lookup_set_self (k : String) (v : Rat) (t : Table) :
    Table.lookup k (Table.set k v t) = some v := by
  induction t with
  | nil => simp [Table.set, Table.lookup]
  | cons e rest ih =>
    obtain ⟨k', v'⟩ := e
    by_cases hk : k' = k
    · simp [Table.set, hk, Table.lookup]
    · simp [Table.set, hk, Table.lookup, ih]

theorem Table.lookup_set_ne {q k : String} (hne : q ≠ k) (v : Rat) (t : Table) :
    Table.lookup q (Table.set k v t) = Table.lookup q t := by
  have hkq : k ≠ q := fun h => hne h.symm
  induction t with
  | nil => simp [Table.set, Table.lookup, hkq]
  | cons e rest ih =>
    obtain ⟨k', v'⟩ := e
    simp only [Table.set]
    by_cases hk : k' = k
    · subst hk
      simp only [if_pos rfl, Table.lookup, if_neg hkq]
    · simp only [if_neg hk, Table.lookup]
      by_cases hq : k' = q
      · rw [if_pos hq, if_pos hq]
      · rw [if_neg hq, if_neg hq, ih]

theorem Table.keys_set (k : String) (v : Rat) (t : Table) :
    Table.keys (Table.set k v t) =
      if k ∈ Table.keys t then Table.keys t else Table.keys t ++ [k] := by
  induction t with
  | nil => simp [Table.set, Table.keys]
  | cons e rest ih =>
    obtain ⟨k', v'⟩ := e
    by_cases hk : k' = k
    · subst hk
      simp [Table.set, Table.keys]
    · have hmem : (k ∈ k' :: Table.keys rest) ↔ k ∈ Table.keys rest := by
        constructor
        · intro h
          cases h with
          | head => exact absurd rfl hk
          | tail _ h => exact h
        · exact fun h => List.mem_cons_of_mem _ h
      by_cases hr : k ∈ Table.keys rest
      · simp [Table.set, hk, Table.keys, ih, hr, hmem]
      · simp [Table.set, hk, Table.keys, ih, hr, hmem]

theorem Table.mem_keys_set_of_mem {q : String} {t : Table} (h : q ∈ Table.keys t)
    (k : String) (v : Rat) : q ∈ Table.keys (Table.set k v t) := by
  rw [Table.keys_set]
  by_cases hk : k ∈ Table.keys t
  · simpa [hk] using h
  · simp [hk, List.mem_append]
    exact Or.inl h

theorem Table.nodup_keys_set {t : Table} (h : (Table.keys t).Nodup)
    (k : String) (v : Rat) : (Table.keys (Table.set k v t)).Nodup := by
  rw [Table.keys_set]
  by_cases hk : k ∈ Table.keys t
  · simpa [hk] using h
  · simp only [hk, if_false]
    simpa [List.nodup_append] using ⟨h, hk⟩

theorem Table.lookup_isSome_of_mem {k : String} {t : Table}
    (h : k ∈ Table.keys t) : (Table.lookup k t).isSome := by
  induction t with
  | nil => cases h
  | cons e rest ih =>
    obtain ⟨k', v'⟩ := e
    by_cases hk : k' = k
    · simp [Table.lookup, hk]
    · have : k ∈ Table.keys rest := by
        cases h with
        | head => exact absurd rfl hk
        | tail _ h => exact h
      simp [Table.lookup, hk, ih this]

theorem Table.mem_of_lookup_eq_some {k : String} {t : Table} {v : Rat}
    (h : Table.lookup k t = some v) : k ∈ Table.keys t := by
  induction t with
  | nil => simp [Table.lookup] at h
  | cons e rest ih =>
    obtain ⟨k', v'⟩ := e
    by_cases hk : k' = k
    · simp [Table.keys, hk]
    · simp only [Table.lookup, if_neg hk] at h
      exact List.mem_cons_of_mem _ (ih h)

/-! ## Helper lemmas: seeding and message updates -/

theorem lookup_seed_preserved (ks : List String) :
    ∀ (t0 : Table) (k : String), Table.lookup k t0 = some 0 →
      Table.lookup k (ks.foldl (fun t k' => Table.set k' 0 t) t0) = some 0 := by
  induction ks with
  | nil => intro t0 k h; exact h
  | cons x ks ih =>
    intro t0 k h
    simp only [List.foldl_cons]
    apply ih
    by_cases hx : k = x
    · subst hx
      exact Table.lookup_set_self k 0 t0
    · rw [Table.lookup_set_ne hx]
      exact h

theorem lookup_seed_of_mem (ks : List String) :
    ∀ (t0 : Table) (k : String), k ∈ ks →
      Table.lookup k (ks.foldl (fun t k' => Table.set k' 0 t) t0) = some 0 := by
  induction ks with
  | nil => intro t0 k h; cases h
  | cons x ks ih =>
    intro t0 k h
    simp only [List.foldl_cons]
    by_cases hk : k ∈ ks
    · exact ih _ _ hk
    · have hx : k = x := by
        cases h with
        | head => rfl
        | tail _ h => exact absurd h hk
      subst hx
      exact lookup_seed_preserved ks _ k (Table.lookup_set_self k 0 t0)

theorem nodup_keys_seed (ks : List String) :
    ∀ t0 : Table, (Table.keys t0).Nodup →
      (Table.keys (ks.foldl (fun t k' => Table.set k' 0 t) t0)).Nodup := by
  induction ks with
  | nil => intro t0 h; exact h
  | cons x ks ih =>
    intro t0 h
    simp only [List.foldl_cons]
    exact ih _ (Table.nodup_keys_set h x 0)

theorem lookup_initTable_of_mem {cond k : String}
    (h : k ∈ extract_topics (undot cond)) :
    Table.lookup k (initTable cond) = some 0 :=
  lookup_seed_of_mem _ _ _ h

theorem nodup_keys_initTable (cond : String) :
    (Table.keys (initTable cond)).Nodup :=
  nodup_keys_seed _ [] (by simp [Table.keys])

theorem mem_keys_applyMsgs {k : String} (msgs : List (String × Rat)) :
    ∀ t : Table, k ∈ Table.keys t → k ∈ Table.keys (applyMsgs t msgs) := by
  induction msgs with
  | nil => intro t h; exact h
  | cons m msgs ih =>
    intro t h
    exact ih _ (Table.mem_keys_set_of_mem h _ _)

theorem nodup_keys_applyMsgs (msgs : List (String × Rat)) :
    ∀ t : Table, (Table.keys t).Nodup → (Table.keys (applyMsgs t msgs)).Nodup := by
  induction msgs with
  | nil => intro t h; exact h
  | cons m msgs ih =>
    intro t h
    exact ih _ (Table.nodup_keys_set h _ _)

theorem countKey_eq_one_of_mem {k : String} {t : Table}
    (hnd : (Table.keys t).Nodup) (hmem : k ∈ Table.keys t) :
    Table.countKey k t = 1 :=
  List.count_eq_one_of_mem hnd hmem

/-! ## Capture Sequencer lemmas -/

theorem getSampleLoop_attempts_le (attempt : Nat → Option Frame) :
    ∀ fuel n, (getSampleLoop attempt fuel n).2 ≤ fuel := by
  intro fuel
  induction fuel with
  | zero => intro n; exact Nat.le_refl 0
  | succ m ih =>
    intro n
    simp only [getSampleLoop]
    cases hA : attempt n with
    | some f => simp
    | none =>
      simp only []
      have := ih (n + 1)
      omega

theorem getSampleLoop_success (attempt : Nat → Option Frame) (f : Frame) :
    ∀ k fuel n, k < fuel → attempt (n + k) = some f →
      (∀ j, j < k → attempt (n + j) = none) →
      getSampleLoop attempt fuel n = (some f, k + 1) := by
  intro k
  induction k with
  | zero =>
    intro fuel n hk hf _
    obtain ⟨m, rfl⟩ : ∃ m, fuel = m + 1 := ⟨fuel - 1, by omega⟩
    simp only [getSampleLoop]
    rw [show n + 0 = n from rfl] at hf
    rw [hf]
  | succ k ih =>
    intro fuel n hk hf hnone
    obtain ⟨m, rfl⟩ : ∃ m, fuel = m + 1 := ⟨fuel - 1, by omega⟩
    have h0 : attempt n = none := by
      have := hnone 0 (Nat.succ_pos k)
      simpa using this
    have hrec : getSampleLoop attempt m (n + 1) = (some f, k + 1) := by
      refine ih m (n + 1) (by omega) ?_ ?_
      · rw [show n + 1 + k = n + (k + 1) by omega]
        exact hf
      · intro j hj
        rw [show n + 1 + j = n + (j + 1) by omega]
        exact hnone (j + 1) (by omega)
    simp only [getSampleLoop, h0, hrec]

theorem getSampleLoop_allfail (attempt : Nat → Option Frame) :
    ∀ fuel n, (∀ j, j < fuel → attempt (n + j) = none) →
      getSampleLoop attempt fuel n = (none, fuel) := by
  intro fuel
  induction fuel with
  | zero => intro n _; rfl
  | succ m ih =>
    intro n h
    have h0 : attempt n = none := by
      have := h 0 (Nat.succ_pos m)
      simpa using this
    have hrec : getSampleLoop attempt m (n + 1) = (none, m) := by
      refine ih (n + 1) ?_
      intro j hj
      rw [show n + 1 + j = n + (j + 1) by omega]
      exact h (j + 1) (by omega)
    simp only [getSampleLoop, h0, hrec]

/-! ## Claim theorems -/

/-- C1, counterexample.  The claim's concrete instance fails on the code:
the pattern `\b[a-z]\w+` requires at least two characters, so for the
expression `"x > 0"` no identifier is extracted, the Signal State Table is
seeded empty, and `x` has no entry (rather than the claimed `{x: 0.0}`). -/
theorem C1_counterexample :
    initTable "x > 0" = [] ∧
    Table.lookup "x" (initTable "x > 0") = none ∧
    Table.countKey "x" (initTable "x > 0") = 0 := by
  decide

/-- C1, amended.  Every identifier actually extracted from the Trigger
Expression (the tokenizer requires a lowercase letter followed by at least
one further word character) has exactly one entry, with value 0.0, in the
Signal State Table right after initialization, and keeps exactly one entry
after any sequence of received messages; but single-character identifiers
such as `x` in `"x > 0"` are not extracted and get no entry. -/
theorem C1_table_seeded_and_stable (cond k : String)
    (h : k ∈ extract_topics (undot cond)) (msgs : List (String × Rat)) :
    Table.lookup k (initTable cond) = some 0 ∧
    Table.countKey k (initTable cond) = 1 ∧
    Table.countKey k (applyMsgs (initTable cond) msgs) = 1 := by
  have h0 := lookup_initTable_of_mem h
  have hmem : k ∈ Table.keys (initTable cond) := Table.mem_of_lookup_eq_some h0
  refine ⟨h0, countKey_eq_one_of_mem (nodup_keys_initTable cond) hmem, ?_⟩
  exact countKey_eq_one_of_mem
    (nodup_keys_applyMsgs msgs _ (nodup_keys_initTable cond))
    (mem_keys_applyMsgs msgs _ hmem)

/-- C1 witness: concrete instance of the amended claim, for the two-character
identifier `ab`. -/
theorem C1_table_seeded_and_stable_witness :
    Table.lookup "ab" (initTable "ab > 0") = some 0 ∧
    Table.countKey "ab" (initTable "ab > 0") = 1 ∧
    Table.countKey "ab" (applyMsgs (initTable "ab > 0") [("ab", 5)]) = 1 :=
  C1_table_seeded_and_stable "ab > 0" "ab" (by decide) [("ab", 5)]

/-- C2: `extract_topics` returns exactly the matches of the identifier
pattern (maximal word-character runs starting with a lowercase letter, of
length at least 2), in order, with every occurrence of the keywords `or`
and `and` removed — not just the first; on
`"temp > 10 and humidity < 50"` it yields exactly `[temp, humidity]`. -/
theorem C2_tokenizer_exact (expr : String) :
    extract_topics expr =
      (findIdents expr).filter (fun t => t != "or" && t != "and") ∧
    extract_topics "temp > 10 and humidity < 50" = ["temp", "humidity"] :=
  ⟨extract_topics_eq_filter expr, by decide⟩

/-- C2 witness: the spec's concrete example, evaluated. -/
theorem C2_tokenizer_exact_witness :
    extract_topics "temp > 10 and humidity < 50" = ["temp", "humidity"] :=
  (C2_tokenizer_exact "temp > 10 and humidity < 50").2

/-- C3, counterexample.  The tokenizer's result is a Python list, not a set:
`extract_topics "a_b or a_b"` is the two-element list `[a_b, a_b]`, which
does contain a duplicate. -/
theorem C3_counterexample :
    extract_topics "a_b or a_b" = ["a_b", "a_b"] ∧
    ¬ (extract_topics "a_b or a_b").Nodup := by
  decide

/-- C3, amended.  The tokenizer returns a list that may repeat an
identifier (`"a_b or a_b"` yields `[a_b, a_b]`); its set of distinct
elements is `{a_b}`, and deduplication happens only downstream, when the
Signal State Table is seeded: the seeded table holds every key at most
once, and holds `a_b` exactly once. -/
theorem C3_dedup_only_in_table (k : String) :
    (extract_topics "a_b or a_b").dedup = ["a_b"] ∧
    Table.countKey k (initTable "a_b or a_b") ≤ 1 ∧
    Table.countKey "a_b" (initTable "a_b or a_b") = 1 := by
  refine ⟨by decide, ?_, by decide⟩
  exact List.nodup_iff_count_le_one.mp (nodup_keys_initTable "a_b or a_b") k

/-- C3 witness: a concrete key of the seeded table, evaluated. -/
theorem C3_dedup_only_in_table_witness :
    Table.countKey "zz" (initTable "a_b or a_b") ≤ 1 :=
  (C3_dedup_only_in_table "zz").2.1

/-- C10: keyword removal is by whole-token equality: every identifier match
other than the exact tokens `or` and `and` — including identifiers that
merely contain them as substrings, such as `order`, `android`, `sand` — is
kept in the result, with its multiplicity. -/
theorem C10_substring_keywords_kept :
    (∀ expr t, t ∈ findIdents expr → t ≠ "or" → t ≠ "and" →
      t ∈ extract_topics expr ∧
      (extract_topics expr).count t = (findIdents expr).count t) ∧
    extract_topics "order < sand and android > 1" = ["order", "sand", "android"] := by
  constructor
  · intro expr t hmem hor hand
    have hp : (t != "or" && t != "and") = true := by simp [hor, hand]
    constructor
    · rw [extract_topics_eq_filter]
      exact List.mem_filter.mpr ⟨hmem, hp⟩
    · rw [extract_topics_eq_filter]
      exact List.count_filter hp
  · decide

/-- C10 witness: the identifiers `order`, `sand`, `android` survive keyword
removal in a concrete expression. -/
theorem C10_substring_keywords_kept_witness :
    "order" ∈ extract_topics "order < sand and android > 1" ∧
    (extract_topics "order < sand and android > 1").count "sand" =
      (findIdents "order < sand and android > 1").count "sand" := by
  refine ⟨?_, ?_⟩
  · exact (C10_substring_keywords_kept.1 "order < sand and android > 1" "order"
      (by decide) (by decide) (by decide)).1
  · exact (C10_substring_keywords_kept.1 "order < sand and android > 1" "sand"
      (by decide) (by decide) (by decide)).2

/-- C4: the Capture Sequencer performs at most `retry` fetch attempts; if
attempt `i ≤ retry` is the first to succeed it returns that attempt's frame
after exactly `i` attempts (no further attempts), and if all `retry`
attempts time out the sampling step raises the fatal no-frame error and
never returns a frame. -/
theorem C4_capture_retry (attempt : Nat → Option Frame) (retry : Nat) :
    (get_sample attempt retry).2 ≤ retry ∧
    (∀ i f, 1 ≤ i → i ≤ retry → attempt i = some f →
      (∀ j, 1 ≤ j → j < i → attempt j = none) →
      get_sample attempt retry = (some f, i)) ∧
    ((∀ j, 1 ≤ j → j ≤ retry → attempt j = none) →
      (get_sample attempt retry).1 = none ∧
      sampleOrHalt attempt retry =
        Except.error "failed to receive an image. halting the sampling...") := by
  refine ⟨getSampleLoop_attempts_le attempt retry 1, ?_, ?_⟩
  · intro i f h1 h2 hf hnone
    have hs : getSampleLoop attempt retry 1 = (some f, (i - 1) + 1) := by
      refine getSampleLoop_success attempt f (i - 1) retry 1 (by omega) ?_ ?_
      · rw [show 1 + (i - 1) = i by omega]
        exact hf
      · intro j hj
        exact hnone (1 + j) (by omega) (by omega)
    unfold get_sample
    rw [hs, show i - 1 + 1 = i by omega]
  · intro h
    have hs : getSampleLoop attempt retry 1 = (none, retry) := by
      refine getSampleLoop_allfail attempt retry 1 ?_
      intro j hj
      exact h (1 + j) (by omega) (by omega)
    constructor
    · unfold get_sample
      rw [hs]
    · unfold sampleOrHalt get_sample
      rw [hs]

/-- C4 witness: with `retry = 3`, two timeouts then a success at attempt 3
return that frame after exactly 3 attempts; three straight timeouts yield
the fatal no-frame error. -/
theorem C4_capture_retry_witness :
    get_sample (fun i => if i = 3 then some (7, 9) else none) 3 = (some (7, 9), 3) ∧
    sampleOrHalt (fun _ => none) 3 =
      Except.error "failed to receive an image. halting the sampling..." := by
  constructor
  · exact (C4_capture_retry (fun i => if i = 3 then some (7, 9) else none) 3).2.1
      3 (7, 9) (by omega) (by omega) rfl
      (fun j h1 h2 => by simp [show j ≠ 3 by omega])
  · exact ((C4_capture_retry (fun _ => none) 3).2.2 (fun j h1 h2 => rfl)).2

/-- Case equation: a closed cooldown gate blocks the iteration. -/
theorem eventStep_eq_blocked {evalCond : Table → Bool} {cooldownSecs : Rat}
    {out_dir : String} {attempt : Nat → Option Frame} {retry : Nat}
    {s : EventState} {msg : String × Rat} {now tFire : Rat}
    (h : now < s.deadline) :
    eventStep evalCond cooldownSecs out_dir attempt retry s msg now tFire =
      StepOut.blocked ⟨applyMsg s.table msg, s.deadline⟩ := by
  unfold eventStep
  rw [if_pos h]

/-- Case equation: open gate, condition false. -/
theorem eventStep_eq_noFire {evalCond : Table → Bool} {cooldownSecs : Rat}
    {out_dir : String} {attempt : Nat → Option Frame} {retry : Nat}
    {s : EventState} {msg : String × Rat} {now tFire : Rat}
    (h1 : ¬ now < s.deadline) (h2 : ¬ evalCond (applyMsg s.table msg) = true) :
    eventStep evalCond cooldownSecs out_dir attempt retry s msg now tFire =
      StepOut.noFire ⟨applyMsg s.table msg, s.deadline⟩ := by
  unfold eventStep
  rw [if_neg h1, if_neg h2]

/-- Case equation: open gate, condition true, capture succeeded. -/
theorem eventStep_eq_fired {evalCond : Table → Bool} {cooldownSecs : Rat}
    {out_dir : String} {attempt : Nat → Option Frame} {retry : Nat}
    {s : EventState} {msg : String × Rat} {now tFire : Rat} {f : Frame}
    (h1 : ¬ now < s.deadline) (h2 : evalCond (applyMsg s.table msg) = true)
    (h3 : (get_sample attempt retry).1 = some f) :
    eventStep evalCond cooldownSecs out_dir attempt retry s msg now tFire =
      StepOut.fired ⟨applyMsg s.table msg, tFire + cooldownSecs⟩ f.1
        (outputPath out_dir f.1) := by
  unfold eventStep
  rw [if_neg h1, if_pos h2, h3]

/-- Case equation: open gate, condition true, capture exhausted. -/
theorem eventStep_eq_halted {evalCond : Table → Bool} {cooldownSecs : Rat}
    {out_dir : String} {attempt : Nat → Option Frame} {retry : Nat}
    {s : EventState} {msg : String × Rat} {now tFire : Rat}
    (h1 : ¬ now < s.deadline) (h2 : evalCond (applyMsg s.table msg) = true)
    (h3 : (get_sample attempt retry).1 = none) :
    eventStep evalCond cooldownSecs out_dir attempt retry s msg now tFire =
      StepOut.halted := by
  unfold eventStep
  rw [if_neg h1, if_pos h2, h3]

/-- C5: in the event-driven loop, an iteration is gated: the outcome is
`blocked` exactly when `now < deadline` (the gate is open iff
`deadline ≤ now`); while blocked the message still updates the Signal State
Table and the deadline is unchanged, and no evaluation or capture happens;
and a `fired` outcome resets the deadline to `tFire + cooldownSecs` and can
only occur when the gate was open. -/
theorem C5_cooldown_gate (evalCond : Table → Bool) (cooldownSecs : Rat)
    (out_dir : String) (attempt : Nat → Option Frame) (retry : Nat)
    (s : EventState) (msg : String × Rat) (now tFire : Rat) :
    ((∃ s', eventStep evalCond cooldownSecs out_dir attempt retry s msg now tFire =
        StepOut.blocked s') ↔ ¬ s.deadline ≤ now) ∧
    (now < s.deadline →
      eventStep evalCond cooldownSecs out_dir attempt retry s msg now tFire =
        StepOut.blocked ⟨applyMsg s.table msg, s.deadline⟩) ∧
    (∀ s' ts p,
      eventStep evalCond cooldownSecs out_dir attempt retry s msg now tFire =
        StepOut.fired s' ts p →
      s'.deadline = tFire + cooldownSecs ∧ s.deadline ≤ now) := by
  by_cases hnow : now < s.deadline
  · refine ⟨iff_of_true ⟨_, eventStep_eq_blocked hnow⟩ (not_le.mpr hnow),
      fun _ => eventStep_eq_blocked hnow, ?_⟩
    intro s' ts p h
    rw [eventStep_eq_blocked hnow] at h
    cases h
  · have hle : s.deadline ≤ now := not_lt.mp hnow
    refine ⟨iff_of_false ?_ (fun hcon => hcon hle), fun hc => absurd hc hnow, ?_⟩
    · rintro ⟨s', hs'⟩
      by_cases he : evalCond (applyMsg s.table msg)
      · cases hA : (get_sample attempt retry).1 with
        | some f => rw [eventStep_eq_fired hnow he hA] at hs'; cases hs'
        | none => rw [eventStep_eq_halted hnow he hA] at hs'; cases hs'
      · rw [eventStep_eq_noFire hnow he] at hs'
        cases hs'
    · intro s' ts p h
      by_cases he : evalCond (applyMsg s.table msg)
      · cases hA : (get_sample attempt retry).1 with
        | some f =>
          rw [eventStep_eq_fired hnow he hA] at h
          cases h
          exact ⟨rfl, hle⟩
        | none => rw [eventStep_eq_halted hnow he hA] at h; cases h
      · rw [eventStep_eq_noFire hnow he] at h
        cases h

/-- C5 witness: at `now = 3` with deadline 10 the message is blocked but
still recorded in the table; a fired step at `tFire = 4` with cooldown 5
carries the reset deadline `4 + 5`. -/
theorem C5_cooldown_gate_witness :
    eventStep (fun _ => false) 5 "" (fun _ => none) 0 ⟨[], 10⟩ ("a.b", 2) 3 3 =
      StepOut.blocked ⟨[("a_b", 2)], 10⟩ ∧
    ((⟨[("a_b", 2)], (4 + 5 : Rat)⟩ : EventState).deadline = 4 + 5 ∧
      (⟨[], (0 : Rat)⟩ : EventState).deadline ≤ 1) := by
  constructor
  · exact (C5_cooldown_gate (fun _ => false) 5 "" (fun _ => none) 0 ⟨[], 10⟩
      ("a.b", 2) 3 3).2.1 (by norm_num)
  · refine (C5_cooldown_gate (fun _ => true) 5 "" (fun _ => some (7, 1)) 2 ⟨[], 0⟩
      ("a.b", 2) 1 4).2.2 ⟨[("a_b", 2)], 4 + 5⟩ 7 "sample.jpg" ?_
    exact eventStep_eq_fired (f := (7, 1)) (by norm_num) rfl rfl

/-- C6: the scheduling mode is chosen once at startup — event-driven iff a
non-empty condition string was supplied — and a periodic cycle sleeps the
fixed interval, then unconditionally invokes the Capture Sequencer; its
outcome is independent of the trigger evaluator, the cooldown deadline, and
every argument other than the interval and the output directory. -/
theorem C6_mode_and_periodic (c : String) (a1 a2 : Args) (ev1 ev2 : Table → Bool)
    (d1 d2 : Rat) (attempt : Nat → Option Frame) (retry : Nat) :
    (selectMode c = Mode.onEvent ↔ c ≠ "") ∧
    (a1.interval = a2.interval → a1.out_dir = a2.out_dir →
      periodicCycle a1 ev1 d1 attempt retry = periodicCycle a2 ev2 d2 attempt retry) ∧
    (∀ f, (get_sample attempt retry).1 = some f →
      periodicCycle a1 ev1 d1 attempt retry =
        PeriodicOut.captured a1.interval f.1 (outputPath a1.out_dir f.1)) ∧
    ((get_sample attempt retry).1 = none →
      periodicCycle a1 ev1 d1 attempt retry = PeriodicOut.halted a1.interval) := by
  refine ⟨?_, ?_, ?_, ?_⟩
  · unfold selectMode
    by_cases hc : c = ""
    · simp [hc]
    · simp [hc]
  · intro hi ho
    unfold periodicCycle
    rw [hi, ho]
  · intro f hf
    unfold periodicCycle
    rw [hf]
  · intro hf
    unfold periodicCycle
    rw [hf]

/-- C6 witness: a non-empty condition selects event-driven mode, and two
argument records agreeing only on interval and output directory produce the
same periodic cycle outcome, which captures unconditionally. -/
theorem C6_mode_and_periodic_witness :
    selectMode "x > 0" = Mode.onEvent ∧
    periodicCycle ⟨"camera", "", 10, "", 5⟩ (fun _ => true) 99
        (fun _ => some (7, 1)) 5 =
      periodicCycle ⟨"cam2", "", 10, "ab > 0", 3⟩ (fun _ => false) 0
        (fun _ => some (7, 1)) 5 ∧
    periodicCycle ⟨"camera", "", 10, "", 5⟩ (fun _ => true) 99
        (fun _ => some (7, 1)) 5 = PeriodicOut.captured 10 7 "sample.jpg" := by
  have h := C6_mode_and_periodic "x > 0" ⟨"camera", "", 10, "", 5⟩
    ⟨"cam2", "", 10, "ab > 0", 3⟩ (fun _ => true) (fun _ => false) 99 0
    (fun _ => some (7, 1)) 5
  refine ⟨h.1.mpr (by decide), h.2.1 rfl rfl, ?_⟩
  exact h.2.2.1 (7, 1) rfl

/-- C7: for every received message `(name, value)` the update normalizes
the name (dots to underscores) and overwrites exactly that one key — also
for identifiers the expression does not reference — leaving every other
entry unchanged and never dropping an entry; and every non-halting
event-loop iteration carries out exactly this updated table. -/
theorem C7_message_update (t : Table) (name : String) (value : Rat) :
    applyMsg t (name, value) = Table.set (undot name) value t ∧
    Table.lookup (undot name) (applyMsg t (name, value)) = some value ∧
    (∀ k, k ≠ undot name →
      Table.lookup k (applyMsg t (name, value)) = Table.lookup k t) ∧
    (∀ k, k ∈ Table.keys t → k ∈ Table.keys (applyMsg t (name, value))) ∧
    (∀ evalCond cooldownSecs out_dir attempt retry deadline now tFire,
      StepOut.tableOf (eventStep evalCond cooldownSecs out_dir attempt retry
          ⟨t, deadline⟩ (name, value) now tFire) = some (applyMsg t (name, value)) ∨
      eventStep evalCond cooldownSecs out_dir attempt retry
          ⟨t, deadline⟩ (name, value) now tFire = StepOut.halted) := by
  refine ⟨rfl, Table.lookup_set_self _ _ _, ?_, ?_, ?_⟩
  · intro k hk
    exact Table.lookup_set_ne hk value t
  · intro k hk
    exact Table.mem_keys_set_of_mem hk _ _
  · intro evalCond cooldownSecs out_dir attempt retry deadline now tFire
    by_cases hnow : now < (⟨t, deadline⟩ : EventState).deadline
    · rw [eventStep_eq_blocked hnow]
      exact Or.inl rfl
    · by_cases he : evalCond (applyMsg t (name, value))
      · cases hA : (get_sample attempt retry).1 with
        | some f =>
          rw [eventStep_eq_fired hnow he hA]
          exact Or.inl rfl
        | none =>
          rw [eventStep_eq_halted hnow he hA]
          exact Or.inr rfl
      · rw [eventStep_eq_noFire hnow he]
        exact Or.inl rfl

/-- C7 witness: the message `(env.temp, 2)` writes key `env_temp` and
leaves the unrelated entry `a` intact. -/
theorem C7_message_update_witness :
    Table.lookup "env_temp" (applyMsg [("a", 1)] ("env.temp", 2)) = some 2 ∧
    Table.lookup "a" (applyMsg [("a", 1)] ("env.temp", 2)) = some 1 := by
  obtain ⟨-, h1, h2, -, -⟩ := C7_message_update [("a", 1)] "env.temp" 2
  refine ⟨h1, ?_⟩
  rw [h2 "a" (by decide)]
  rfl

/-- C9: with no output directory configured the Output Path is the fixed
`sample.jpg`, identical on every capture (each capture overwrites the
previous file); with an output directory it is that directory joined with
the UTC-formatted capture timestamp plus `.jpg`. -/
theorem C9_output_path (ts1 ts2 : Nat) (d : String) :
    outputPath "" ts1 = "sample.jpg" ∧
    outputPath "" ts1 = outputPath "" ts2 ∧
    (d ≠ "" → outputPath d ts1 =
      joinPath d (formatUTC (ts1 / 1000000000) ++ ".jpg")) := by
  refine ⟨?_, ?_, fun hd => ?_⟩
  · unfold outputPath
    rw [if_neg (by simp)]
  · unfold outputPath
    rw [if_neg (by simp), if_neg (by simp)]
  · unfold outputPath
    rw [if_pos hd]

/-- C9 witness: the spec's sample timestamp `1700000000123456789` ns under
directory `data` lands at the UTC-formatted path, and the fallback is
`sample.jpg`. -/
theorem C9_output_path_witness :
    outputPath "data" 1700000000123456789 =
      "data/2023-11-14T22:13:20+0000.jpg" ∧
    outputPath "" 1700000000123456789 = "sample.jpg" := by
  have h := C9_output_path 1700000000123456789 0 "data"
  refine ⟨?_, h.1⟩
  rw [h.2.2 (by decide)]
  rfl

end ImageSampler
